import Mathlib

/-!
# Kagenou-Bot: command dispatch and session persistence (`src/index.js`)

A shallow embedding of the dispatch core of `src/index.js`:
`loadCommands`, `loadUserData`, `saveUserData`, `sendMessage`, `handleMessage`
and the `listenMqtt` callback of `startListeningForMessages`.

Modelling conventions.

* A JavaScript string is a `List Char` (`Str`).
* `String.prototype.toLowerCase` is a built-in whose Unicode case tables are not
  part of the source: every operation that calls it takes it as the parameter
  `toLowerCase`, and the theorems hold for every function that satisfies
  `LowerCaseLaws`, the facts about the built-in that the proofs use. On a text
  of ASCII characters the built-in is `asciiToLowerCase`, which is what the
  concrete inputs are evaluated with.
* `String.prototype.trim` removes the ECMAScript `WhiteSpace` and
  `LineTerminator` characters from both ends.
* `split(/ +/)` splits at maximal runs of the space character U+0020.
* A plugin's `execute` is a total function from what it is given to what it
  does: the session state it leaves, the transport calls it makes and the value
  it throws or rejects with, when it fails. A plugin that never settles is not
  modelled.
* What the process does is recorded as a chronological list of `Effect`s.
-/

namespace Kagenou

/-- A JavaScript string, as the list of its characters. -/
abbrev Str := List Char

/-! ## String primitives -/

/-- ECMAScript `WhiteSpace` and `LineTerminator` code points: what `trim` strips. -/
def isWhiteSpace (c : Char) : Bool :=
  let n := c.toNat
  (9 ≤ n && n ≤ 13) || n == 32 || n == 160 || n == 5760 || (8192 ≤ n && n ≤ 8202) ||
    n == 8232 || n == 8233 || n == 8239 || n == 8287 || n == 12288 || n == 65279

/-- The method `String.prototype.trim`. -/
def trim (s : Str) : Str := (s.dropWhile isWhiteSpace).rdropWhile isWhiteSpace

/-- The call `s.split(/ +/)`: the pieces of `s` between maximal runs of spaces.
A run at the start or at the end of `s` leaves an empty piece there, and the
empty string gives one empty piece. -/
def splitSpaces : Str → List Str
  | [] => [[]]
  | c :: cs =>
    if c = ' ' then
      if cs.head? = some ' ' then splitSpaces cs else [] :: splitSpaces cs
    else
      match splitSpaces cs with
      | [] => [[c]]
      | w :: ws => (c :: w) :: ws

/-- The element `words[0]` of a split (a split is never empty). -/
def firstWord (words : List Str) : Str := words.headD []

/-- The ASCII rows of the lower-case table: `A`-`Z` become `a`-`z`. -/
def lowerChar (c : Char) : Char :=
  if 65 ≤ c.toNat ∧ c.toNat ≤ 90 then Char.ofNat (c.toNat + 32) else c

/-- The method `String.prototype.toLowerCase` on a text of ASCII characters. It
is used to evaluate the operations on concrete ASCII inputs only. -/
def asciiToLowerCase (s : Str) : Str := s.map lowerChar

/-- The facts about the built-in `String.prototype.toLowerCase` (the Unicode
default lower-case conversion, which is context-sensitive only for the capital
sigma) that the proofs use, each for every text:

* `ascii`: on a text of ASCII characters it is the ASCII table;
* `separator`: a space or a slash is kept and separates the contexts, the text
  on each side is converted by itself;
* `leading`, `trailing`: a white-space character at the start or at the end is
  kept and does not change the conversion of the rest;
* `stable`: a piece of a converted text is not changed by converting it again;
* `nonempty`: only the empty text is converted to the empty text;
* `spaces`: the conversion does not produce a space;
* `ends`: a text without white space at its ends is converted to such a text. -/
structure LowerCaseLaws (toLowerCase : Str → Str) : Prop where
  ascii : ∀ s : Str, (∀ c ∈ s, c.toNat < 128) → toLowerCase s = s.map lowerChar
  separator : ∀ (a b : Str) (c : Char), c = ' ' ∨ c = '/' →
    toLowerCase (a ++ c :: b) = toLowerCase a ++ c :: toLowerCase b
  leading : ∀ (c : Char) (s : Str), isWhiteSpace c = true →
    toLowerCase (c :: s) = c :: toLowerCase s
  trailing : ∀ (c : Char) (s : Str), isWhiteSpace c = true →
    toLowerCase (s ++ [c]) = toLowerCase s ++ [c]
  stable : ∀ s a t b : Str, toLowerCase s = a ++ t ++ b → toLowerCase t = t
  nonempty : ∀ s : Str, toLowerCase s = [] → s = []
  spaces : ∀ s : Str, ' ' ∈ toLowerCase s → ' ' ∈ s
  ends : ∀ s : Str, trim s = s → trim (toLowerCase s) = toLowerCase s

/-! ## Data model -/

/-- A value that JavaScript code throws, or that a promise is rejected with. -/
inductive Thrown where
  /-- An `Error` object whose `message` property is the given string. -/
  | error (message : Str)
  /-- A primitive string. -/
  | string (s : Str)
  /-- The value `null`. -/
  | null
  /-- The value `undefined`. -/
  | undefined
  deriving DecidableEq, Repr

/-- The template piece `${error.message}`: the property `message` of the caught
value, converted to a string. A primitive string has no such property, and the
template prints `undefined`; reading a property of `null` or of `undefined`
throws a `TypeError`. -/
def Thrown.messageText : Thrown → Except Thrown Str
  | .error m => .ok m
  | .string _ => .ok "undefined".toList
  | .null => .error (.error "Cannot read properties of null (reading 'message')".toList)
  | .undefined =>
    .error (.error "Cannot read properties of undefined (reading 'message')".toList)

/-- An inbound event of the backend: the fields the dispatcher reads. -/
structure Event where
  type : Str
  threadID : Str
  senderID : Str
  body : Str
  deriving DecidableEq, Repr

/-- The object `config`, read from `config.json`. -/
structure Config where
  admins : List Str
  deriving DecidableEq, Repr

/-- The connection handle `api`: the identity of the logged-in account, and
whether the transport call `api.sendMessage(text, threadID, cb)` throws. -/
structure Api where
  currentUserID : Str
  sendMessageThrows : Str → Str → Option Thrown

/-- What one call of a plugin's `execute` does: the session state it leaves, the
transport calls it makes (thread and text, in order) and the value it throws or
rejects with, if it fails. -/
structure ExecResult (σ : Type) where
  userData : σ
  sent : List (Str × Str)
  thrown : Option Thrown

/-- A plugin module. `name` is `none` when the module exports no `name`.
`execute` receives the event, the argument list, the admin list and the session
state; the connection, the registry, the prefix and the send capability it also
receives are the same in every call. -/
structure Command (σ : Type) where
  name : Option Str
  execute : Event → List Str → List Str → σ → ExecResult σ

/-- What the process does, in the order it does it. -/
inductive Effect (σ : Type) where
  /-- A call `command.execute(api, event, args, ...)`. -/
  | execute (command : Command σ) (args : List Str)
  /-- A transport call `api.sendMessage(text, threadID, cb)`. -/
  | transport (threadID : Str) (text : Str)
  /-- A call of `saveUserData`, with the session state it serialises. -/
  | save (userData : σ)

/-- The `Map` named `commands`: keys in insertion order. -/
abbrev CommandMap (σ : Type) := List (Str × Command σ)

/-- The method `Map.prototype.get`. -/
def CommandMap.get {σ : Type} : CommandMap σ → Str → Option (Command σ)
  | [], _ => none
  | (k, v) :: rest, key => if k = key then some v else CommandMap.get rest key

/-- The method `Map.prototype.has`. -/
def CommandMap.has {σ : Type} (m : CommandMap σ) (key : Str) : Bool :=
  (m.get key).isSome

/-- The method `Map.prototype.set`: the value of an existing key is replaced in
place, a new key is added at the end. -/
def CommandMap.set {σ : Type} : CommandMap σ → Str → Command σ → CommandMap σ
  | [], key, value => [(key, value)]
  | (k, v) :: rest, key, value =>
    if k = key then (k, value) :: rest else (k, v) :: CommandMap.set rest key value

/-- The running computation: the global `userData` as it stands, what has been
done so far, and the value thrown, if control left by an exception. -/
structure Outcome (σ : Type) where
  userData : σ
  trace : List (Effect σ)
  thrown : Option Thrown

/-- The statement `try { body } catch (error) { handler }`. -/
def tryCatch {σ : Type} (body : Outcome σ) (handler : Thrown → σ → Outcome σ) : Outcome σ :=
  match body.thrown with
  | none => body
  | some error =>
    let h := handler error body.userData
    { userData := h.userData, trace := body.trace ++ h.trace, thrown := h.thrown }

/-- A call of an async function whose promise is not awaited: what it does is
done, a rejection does not reach the caller. -/
def notAwaited {σ : Type} (o : Outcome σ) : Outcome σ :=
  { o with thrown := none }

/-- The process state outside the dispatcher: the global `userData`, the content
of `userData.json` (`none` when the file is absent or does not parse) and
whether the file can be written. -/
structure World (σ : Type) where
  userData : σ
  file : Option σ
  writable : Bool

/-- The outcome of one call of the listener callback. -/
structure WorldOutcome (σ : Type) where
  world : World σ
  trace : List (Effect σ)
  thrown : Option Thrown

/-! ## Operations -/

/-- The constant `prefix` of the source (line 45). -/
def prefixStr : Str := "/".toList

/-- The function `loadCommands` (lines 16-30). The directory is the list of its
entries: a file name and what `require` gives for it, `none` when it throws. -/
def loadCommands {σ : Type} (toLowerCase : Str → Str)
    (dir : List (Str × Option (Command σ))) (commands : CommandMap σ) : CommandMap σ :=
  let commandFiles := dir.filter (fun file => ".js".toList.isSuffixOf file.1)
  commandFiles.foldl
    (fun commands file =>
      match file.2 with
      | none => commands
      | some command =>
        match command.name with
        | none => commands
        | some name => if name = [] then commands else commands.set (toLowerCase name) command)
    commands

/-- The function `loadUserData` (lines 49-58). -/
def loadUserData {σ : Type} (w : World σ) : World σ :=
  match w.file with
  | some data => { w with userData := data }
  | none => w

/-- The function `saveUserData` (lines 60-68). -/
def saveUserData {σ : Type} (w : World σ) : World σ × List (Effect σ) :=
  (if w.writable then { w with file := some w.userData } else w, [Effect.save w.userData])

/-- The function `sendMessage` (lines 94-104). -/
def sendMessage {σ : Type} (api : Api) (threadID message : Str) (userData : σ) : Outcome σ :=
  tryCatch
    (if message = [] ∨ trim message = [] then
      { userData := userData, trace := [], thrown := none }
    else
      { userData := userData, trace := [Effect.transport threadID message],
        thrown := api.sendMessageThrows message threadID })
    (fun _ userData => { userData := userData, trace := [], thrown := none })

/-- The expression `await command.execute(api, event, args, commands, prefix,
config.admins, global.userData, sendMessage)`. -/
def awaitExecute {σ : Type} (command : Command σ) (event : Event) (args : List Str)
    (config : Config) (userData : σ) : Outcome σ :=
  let r := command.execute event args config.admins userData
  { userData := r.userData,
    trace := Effect.execute command args :: r.sent.map (fun m => Effect.transport m.1 m.2),
    thrown := r.thrown }

/-- The two `catch (error)` blocks of `handleMessage` (lines 118-120 and
127-129), which are the same statement. -/
def catchBlock {σ : Type} (api : Api) (threadID : Str) (error : Thrown) (userData : σ) :
    Outcome σ :=
  match error.messageText with
  | .ok m => notAwaited (sendMessage api threadID ("Error executing command: ".toList ++ m) userData)
  | .error e => { userData := userData, trace := [], thrown := some e }

/-- The function `handleMessage` (lines 106-136). Its parameter `sendMessage` is
the function `sendMessage` above, which is what its one caller passes. The calls
of `sendMessage` are not awaited. -/
def handleMessage {σ : Type} (toLowerCase : Str → Str) (api : Api) (commands : CommandMap σ)
    (config : Config) (event : Event) (args : List Str) (userData : σ) : Outcome σ :=
  let threadID := event.threadID
  let senderID := event.senderID
  let body := event.body
  let message := toLowerCase body
  let isAdmin := config.admins.contains senderID
  let words := splitSpaces (trim message)
  let commandName := toLowerCase (firstWord words)
  if commandName = "prefix".toList ∧ commands.has "prefix".toList = true then
    tryCatch
      (match commands.get "prefix".toList with
        | some command => awaitExecute command event words.tail config userData
        | none =>
          { userData := userData, trace := [],
            thrown := some (.error
              "Cannot read properties of undefined (reading 'execute')".toList) })
      (catchBlock api threadID)
  else if prefixStr.isPrefixOf message = true then
    let commandName :=
      toLowerCase (firstWord (splitSpaces (trim (message.drop prefixStr.length))))
    match commands.get commandName with
    | some command =>
      tryCatch (awaitExecute command event args config userData) (catchBlock api threadID)
    | none =>
      notAwaited
        (sendMessage api threadID ("Command not found: ".toList ++ commandName) userData)
  else if isAdmin = true then
    { userData := userData, trace := [], thrown := none }
  else
    { userData := userData, trace := [], thrown := none }

/-- The callback that `startListeningForMessages` gives to `api.listenMqtt`
(lines 139-151), on one `(err, event)` pair. -/
def listenCallback {σ : Type} (toLowerCase : Str → Str) (api : Api)
    (commands : CommandMap σ) (config : Config)
    (err : Option Thrown) (event : Event) (w : World σ) : WorldOutcome σ :=
  if err.isSome = true then
    { world := w, trace := [], thrown := none }
  else if event.type = "message".toList then
    if event.senderID = api.currentUserID then
      { world := w, trace := [], thrown := none }
    else
      let args := splitSpaces (trim event.body)
      let h := handleMessage toLowerCase api commands config event args w.userData
      match h.thrown with
      | some e => { world := { w with userData := h.userData }, trace := h.trace, thrown := some e }
      | none =>
        let s := saveUserData { w with userData := h.userData }
        { world := s.1, trace := h.trace ++ s.2, thrown := none }
  else
    { world := w, trace := [], thrown := none }

/-! ## What a run of a command leaves behind -/

/-- The reply that a `catch` block of `handleMessage` sends for the settlement of
`execute`: none when it completed, the text `Error executing command: ` and the
message when the message of the thrown value can be read, none when reading it
throws. -/
def failureReply {σ : Type} (threadID : Str) : Option Thrown → List (Effect σ)
  | none => []
  | some e =>
    match e.messageText with
    | .ok m => [Effect.transport threadID ("Error executing command: ".toList ++ m)]
    | .error _ => []

/-- The value that leaves `handleMessage` for the settlement of `execute`: none
when it completed or when the `catch` block replied, the `TypeError` of the
`catch` block when the message of the thrown value cannot be read. -/
def escapes : Option Thrown → Option Thrown
  | none => none
  | some e =>
    match e.messageText with
    | .ok _ => none
    | .error t => some t

/-! ## Concrete inputs -/

/-- A session state for the examples: a JSON object whose values are strings. -/
abbrev State := List (Str × Str)

/-- A connection whose account is `bot` and whose transport does not throw. -/
def api0 : Api := { currentUserID := "bot".toList, sendMessageThrows := fun _ _ => none }

/-- A configuration without admins. -/
def cfg0 : Config := { admins := [] }

/-- A `message` event from `user1` in thread `t1`. -/
def msg (body : String) : Event :=
  { type := "message".toList, threadID := "t1".toList, senderID := "user1".toList,
    body := body.toList }

/-- A process state with an empty session state and no `userData.json` yet. -/
def w0 : World State := { userData := [], file := none, writable := true }

/-- A plugin that does nothing and completes. -/
def quietCommand (name : String) : Command State :=
  { name := some name.toList,
    execute := fun _ _ _ userData => { userData := userData, sent := [], thrown := none } }

/-- A plugin that fails with the given value, having done nothing. -/
def failingCommand (name : String) (e : Thrown) : Command State :=
  { name := some name.toList,
    execute := fun _ _ _ userData => { userData := userData, sent := [], thrown := some e } }

/-- A plugin that sets `state[senderID] = "x"` and then settles as given. -/
def markCommand (name : String) (thrown : Option Thrown) : Command State :=
  { name := some name.toList,
    execute := fun event _ _ userData =>
      { userData := (event.senderID, "x".toList) :: userData, sent := [], thrown := thrown } }

/-! ## Characters and strings -/

theorem toNat_ofNat_small (n : Nat) (h : n < 55296) : (Char.ofNat n).toNat = n := by
  unfold Char.ofNat
  have hv : n.isValidChar := Or.inl h
  simp only [hv, dite_true]
  rfl

theorem char_eq_of_toNat_eq {c d : Char} (h : c.toNat = d.toNat) : c = d := by
  rw [← Char.ofNat_toNat c, ← Char.ofNat_toNat d, h]

theorem lowerChar_toNat (c : Char) :
    (lowerChar c).toNat = if 65 ≤ c.toNat ∧ c.toNat ≤ 90 then c.toNat + 32 else c.toNat := by
  unfold lowerChar
  split
  · rw [toNat_ofNat_small _ (by omega)]
  · rfl

theorem lowerChar_idem (c : Char) : lowerChar (lowerChar c) = lowerChar c := by
  apply char_eq_of_toNat_eq
  rw [lowerChar_toNat (lowerChar c), lowerChar_toNat c]
  by_cases h : 65 ≤ c.toNat ∧ c.toNat ≤ 90
  · rw [if_pos h, if_neg (by omega)]
  · rw [if_neg h, if_neg h]

theorem isWhiteSpace_iff (c : Char) :
    isWhiteSpace c = true ↔
      (9 ≤ c.toNat ∧ c.toNat ≤ 13) ∨ c.toNat = 32 ∨ c.toNat = 160 ∨ c.toNat = 5760 ∨
        (8192 ≤ c.toNat ∧ c.toNat ≤ 8202) ∨ c.toNat = 8232 ∨ c.toNat = 8233 ∨
        c.toNat = 8239 ∨ c.toNat = 8287 ∨ c.toNat = 12288 ∨ c.toNat = 65279 := by
  simp [isWhiteSpace, or_assoc]

theorem isWhiteSpace_lowerChar (c : Char) : isWhiteSpace (lowerChar c) = isWhiteSpace c := by
  rw [Bool.eq_iff_iff, isWhiteSpace_iff, isWhiteSpace_iff, lowerChar_toNat]
  by_cases h : 65 ≤ c.toNat ∧ c.toNat ≤ 90
  · rw [if_pos h]
    omega
  · rw [if_neg h]

theorem lowerChar_eq_space (c : Char) : lowerChar c = ' ' ↔ c = ' ' := by
  constructor
  · intro h
    apply char_eq_of_toNat_eq
    have h2 := congrArg Char.toNat h
    rw [lowerChar_toNat] at h2
    have h3 : (' ' : Char).toNat = 32 := rfl
    rw [h3] at h2 ⊢
    by_cases h4 : 65 ≤ c.toNat ∧ c.toNat ≤ 90
    · rw [if_pos h4] at h2
      omega
    · rw [if_neg h4] at h2
      exact h2
  · intro h
    subst h
    rfl

theorem asciiToLowerCase_idem (s : Str) : asciiToLowerCase (asciiToLowerCase s) = asciiToLowerCase s := by
  simp [asciiToLowerCase, lowerChar_idem]

theorem asciiToLowerCase_cons (c : Char) (s : Str) :
    asciiToLowerCase (c :: s) = lowerChar c :: asciiToLowerCase s := rfl

theorem asciiToLowerCase_append (s t : Str) :
    asciiToLowerCase (s ++ t) = asciiToLowerCase s ++ asciiToLowerCase t := by
  simp [asciiToLowerCase]

theorem asciiToLowerCase_drop (n : Nat) (s : Str) :
    asciiToLowerCase (s.drop n) = (asciiToLowerCase s).drop n := by
  simp [asciiToLowerCase, List.map_drop]

theorem dropWhile_ws_asciiToLowerCase (s : Str) :
    (asciiToLowerCase s).dropWhile isWhiteSpace = asciiToLowerCase (s.dropWhile isWhiteSpace) := by
  induction s with
  | nil => rfl
  | cons c s ih =>
    rw [asciiToLowerCase_cons, List.dropWhile_cons, List.dropWhile_cons, isWhiteSpace_lowerChar]
    cases isWhiteSpace c
    · simp [asciiToLowerCase_cons]
    · simpa using ih

theorem asciiToLowerCase_reverse (s : Str) : asciiToLowerCase s.reverse = (asciiToLowerCase s).reverse := by
  simp [asciiToLowerCase, List.map_reverse]

theorem trim_asciiToLowerCase (s : Str) : trim (asciiToLowerCase s) = asciiToLowerCase (trim s) := by
  unfold trim List.rdropWhile
  rw [dropWhile_ws_asciiToLowerCase, ← asciiToLowerCase_reverse, dropWhile_ws_asciiToLowerCase,
    asciiToLowerCase_reverse]

theorem trim_eq_nil_iff (s : Str) : trim s = [] ↔ ∀ c ∈ s, isWhiteSpace c = true := by
  unfold trim
  rw [List.rdropWhile_eq_nil_iff]
  constructor
  · intro h
    rw [← List.dropWhile_eq_nil_iff]
    cases hd : s.dropWhile isWhiteSpace with
    | nil => rfl
    | cons a l =>
      have h1 := List.head_dropWhile_not isWhiteSpace s (by rw [hd]; simp)
      have h2 := h a (by rw [hd]; simp)
      simp [hd] at h1
      rw [h1] at h2
      cases h2
  · intro h
    rw [List.dropWhile_eq_nil_iff.mpr h]
    simp

theorem dropWhile_concat_neg (p : Char → Bool) (l : Str) (c : Char) (h : p c = false) :
    (l ++ [c]).dropWhile p = l.dropWhile p ++ [c] := by
  induction l with
  | nil => simp [List.dropWhile_cons, h]
  | cons a l ih =>
    rw [List.cons_append, List.dropWhile_cons, List.dropWhile_cons]
    cases p a
    · simp
    · simpa using ih

theorem rdropWhile_cons_neg (p : Char → Bool) (l : Str) (c : Char) (h : p c = false) :
    (c :: l).rdropWhile p = c :: l.rdropWhile p := by
  unfold List.rdropWhile
  rw [List.reverse_cons, dropWhile_concat_neg p _ c h]
  simp

theorem trim_cons_neg (c : Char) (s : Str) (h : isWhiteSpace c = false) :
    trim (c :: s) = c :: s.rdropWhile isWhiteSpace := by
  unfold trim
  rw [List.dropWhile_cons, h]
  simp only [Bool.false_eq_true, if_false]
  exact rdropWhile_cons_neg _ _ _ h

theorem splitSpaces_ne_nil (s : Str) : splitSpaces s ≠ [] := by
  induction s with
  | nil => simp [splitSpaces]
  | cons c cs ih =>
    unfold splitSpaces
    split
    · split
      · exact ih
      · simp
    · split <;> simp

theorem firstWord_splitSpaces_cons (c : Char) (s : Str) (h : c ≠ ' ') :
    firstWord (splitSpaces (c :: s)) = c :: firstWord (splitSpaces s) := by
  rw [splitSpaces, if_neg h]
  cases hs : splitSpaces s with
  | nil => exact absurd hs (splitSpaces_ne_nil s)
  | cons w ws => simp [firstWord]

theorem firstWord_splitSpaces_space (s : Str) : firstWord (splitSpaces (' ' :: s)) = [] := by
  induction s with
  | nil => simp [splitSpaces, firstWord]
  | cons c cs ih =>
    rw [splitSpaces]
    simp only [if_true]
    split
    · rename_i h
      simp only [List.head?_cons, Option.some.injEq] at h
      subst h
      exact ih
    · simp [firstWord]

theorem firstWord_splitSpaces_append (n r : Str) (h : ' ' ∉ n) :
    firstWord (splitSpaces (n ++ ' ' :: r)) = n := by
  induction n with
  | nil => simpa using firstWord_splitSpaces_space r
  | cons c cs ih =>
    have hc : c ≠ ' ' := fun e => h (by simp [e])
    have hcs : ' ' ∉ cs := fun e => h (by simp [e])
    rw [List.cons_append, firstWord_splitSpaces_cons _ _ hc, ih hcs]

theorem firstWord_splitSpaces_self (n : Str) (h : ' ' ∉ n) :
    firstWord (splitSpaces n) = n := by
  induction n with
  | nil => simp [splitSpaces, firstWord]
  | cons c cs ih =>
    have hc : c ≠ ' ' := fun e => h (by simp [e])
    have hcs : ' ' ∉ cs := fun e => h (by simp [e])
    rw [firstWord_splitSpaces_cons _ _ hc, ih hcs]

theorem splitSpaces_asciiToLowerCase (s : Str) :
    splitSpaces (asciiToLowerCase s) = (splitSpaces s).map asciiToLowerCase := by
  induction s with
  | nil => simp [splitSpaces, asciiToLowerCase]
  | cons c cs ih =>
    rw [asciiToLowerCase_cons, splitSpaces, splitSpaces, ih]
    by_cases hc : c = ' '
    · subst hc
      have h1 : lowerChar ' ' = ' ' := rfl
      rw [h1]
      simp only [if_true]
      cases cs with
      | nil => simp [asciiToLowerCase]
      | cons d ds =>
        simp only [asciiToLowerCase_cons, List.head?_cons, Option.some.injEq, lowerChar_eq_space]
        split <;> simp [asciiToLowerCase]
    · have h1 : lowerChar c ≠ ' ' := fun e => hc ((lowerChar_eq_space c).mp e)
      rw [if_neg h1, if_neg hc]
      cases hs : splitSpaces cs with
      | nil => exact absurd hs (splitSpaces_ne_nil cs)
      | cons w ws => simp [asciiToLowerCase]

theorem firstWord_map_asciiToLowerCase (l : List Str) :
    firstWord (l.map asciiToLowerCase) = asciiToLowerCase (firstWord l) := by
  cases l <;> simp [firstWord, asciiToLowerCase]

/-- The first word of the trimmed, split lower-cased text is already lower case. -/
theorem asciiToLowerCase_firstWord_lower (s : Str) :
    asciiToLowerCase (firstWord (splitSpaces (trim (asciiToLowerCase s)))) =
      firstWord (splitSpaces (trim (asciiToLowerCase s))) := by
  rw [trim_asciiToLowerCase, splitSpaces_asciiToLowerCase, firstWord_map_asciiToLowerCase, asciiToLowerCase_idem]

theorem lowerChar_of_isWhiteSpace (c : Char) (h : isWhiteSpace c = true) : lowerChar c = c := by
  rw [isWhiteSpace_iff] at h
  unfold lowerChar
  rw [if_neg (by omega)]

theorem lowerChar_fixed_of_mem {s t : Str} (c : Char) (hc : c ∈ t)
    (ht : ∀ d ∈ t, d ∈ s.map lowerChar) : lowerChar c = c := by
  have h := ht c hc
  rw [List.mem_map] at h
  obtain ⟨d, _, hd⟩ := h
  rw [← hd, lowerChar_idem]

theorem asciiToLowerCase_space_not_mem {s : Str} (h : ' ' ∉ s) : ' ' ∉ asciiToLowerCase s := by
  intro hm
  simp only [asciiToLowerCase, List.mem_map] at hm
  obtain ⟨d, hd, he⟩ := hm
  rw [(lowerChar_eq_space d).mp he] at hd
  exact h hd

/-- The ASCII table satisfies the laws. -/
theorem asciiToLowerCase_laws : LowerCaseLaws asciiToLowerCase where
  ascii := fun _ _ => rfl
  separator := by
    intro a b c hc
    have h : lowerChar c = c := by
      rcases hc with h | h <;> subst h <;> decide
    simp [asciiToLowerCase, h]
  leading := by
    intro c s hc
    simp [asciiToLowerCase, lowerChar_of_isWhiteSpace c hc]
  trailing := by
    intro c s hc
    simp [asciiToLowerCase, lowerChar_of_isWhiteSpace c hc]
  stable := by
    intro s a t b h
    unfold asciiToLowerCase at h ⊢
    have ht : ∀ d ∈ t, d ∈ s.map lowerChar := by
      intro d hd
      rw [h]
      simp [hd]
    calc t.map lowerChar = t.map id :=
          List.map_congr_left (fun c hc => lowerChar_fixed_of_mem c hc ht)
      _ = t := List.map_id t
  nonempty := by
    intro s h
    cases s with
    | nil => rfl
    | cons c cs => simp [asciiToLowerCase] at h
  spaces := by
    intro s h
    by_contra hn
    exact asciiToLowerCase_space_not_mem hn h
  ends := by
    intro s h
    rw [trim_asciiToLowerCase, h]

/-! ## Trimming and splitting -/

theorem dropWhile_pre_word (p : Char → Bool) (pre w q : Str) (hpre : ∀ c ∈ pre, p c = true)
    (hw : ∀ c ∈ w, p c = false) (hne : w ≠ []) :
    (pre ++ (w ++ q)).dropWhile p = w ++ q := by
  induction pre with
  | nil =>
    cases w with
    | nil => exact absurd rfl hne
    | cons c cs =>
      have hc : p c = false := hw c (by simp)
      simp [List.dropWhile_cons, hc]
  | cons a pre ih =>
    have ha : p a = true := hpre a (by simp)
    rw [List.cons_append, List.dropWhile_cons, ha]
    simp only [if_true]
    exact ih (fun c hc => hpre c (List.mem_cons_of_mem a hc))

theorem rdropWhile_word_append (p : Char → Bool) (w q : Str) (hw : ∀ c ∈ w, p c = false) :
    (w ++ q).rdropWhile p = w ++ q.rdropWhile p := by
  induction w with
  | nil => rfl
  | cons c cs ih =>
    rw [List.cons_append, rdropWhile_cons_neg p _ c (hw c (by simp)),
      ih (fun d hd => hw d (List.mem_cons_of_mem c hd)), List.cons_append]

theorem rdropWhile_cons_cases (p : Char → Bool) (c : Char) (q : Str) :
    (c :: q).rdropWhile p = [] ∨ ∃ r, (c :: q).rdropWhile p = c :: r := by
  obtain ⟨t, ht⟩ := List.rdropWhile_prefix p (c :: q)
  cases hr : (c :: q).rdropWhile p with
  | nil => exact Or.inl rfl
  | cons d r =>
    rw [hr, List.cons_append] at ht
    exact Or.inr ⟨r, by rw [(List.cons.inj ht).1]⟩

theorem rdropWhile_decomp (p : Char → Bool) (d : Str) :
    d = d.rdropWhile p ++ (d.reverse.takeWhile p).reverse := by
  unfold List.rdropWhile
  rw [← List.reverse_append, List.takeWhile_append_dropWhile, List.reverse_reverse]

/-- A text is its trimmed form between two runs of white space. -/
theorem trim_decomp (u : Str) :
    ∃ a b, u = a ++ trim u ++ b ∧ (∀ c ∈ a, isWhiteSpace c = true) ∧
      (∀ c ∈ b, isWhiteSpace c = true) := by
  refine ⟨u.takeWhile isWhiteSpace,
    ((u.dropWhile isWhiteSpace).reverse.takeWhile isWhiteSpace).reverse, ?_, ?_, ?_⟩
  · unfold trim
    rw [List.append_assoc, ← rdropWhile_decomp, List.takeWhile_append_dropWhile]
  · exact fun c hc => List.mem_takeWhile_imp hc
  · intro c hc
    rw [List.mem_reverse] at hc
    exact List.mem_takeWhile_imp hc

/-- A text is its first word followed by nothing or by a space and the rest. -/
theorem firstWord_decomp (u : Str) :
    ∃ b, u = firstWord (splitSpaces u) ++ b ∧ (b = [] ∨ ∃ r, b = ' ' :: r) := by
  induction u with
  | nil => exact ⟨[], by simp [splitSpaces, firstWord], Or.inl rfl⟩
  | cons c cs ih =>
    by_cases hc : c = ' '
    · subst hc
      exact ⟨' ' :: cs, by rw [firstWord_splitSpaces_space]; rfl, Or.inr ⟨cs, rfl⟩⟩
    · obtain ⟨b, hb, hcase⟩ := ih
      refine ⟨b, ?_, hcase⟩
      rw [firstWord_splitSpaces_cons _ _ hc, List.cons_append, ← hb]

theorem length_trim_le (s : Str) : (trim s).length ≤ s.length := by
  unfold trim
  have h1 := ( List.rdropWhile_prefix isWhiteSpace (s.dropWhile isWhiteSpace)).length_le
  have h2 := (List.dropWhile_sublist isWhiteSpace :
    List.Sublist (s.dropWhile isWhiteSpace) s).length_le
  omega

theorem trim_cons_pos (c : Char) (t : Str) (h : isWhiteSpace c = true) :
    trim (c :: t) = trim t := by
  unfold trim
  rw [List.dropWhile_cons, h]
  rfl

theorem trim_concat_pos (d : Char) (t : Str) (h : isWhiteSpace d = true) :
    trim (t ++ [d]) = trim t := by
  unfold trim
  rw [List.dropWhile_append]
  cases hd : t.dropWhile isWhiteSpace with
  | nil => simp [List.dropWhile_cons, h, List.rdropWhile]
  | cons a l =>
    simp only [List.isEmpty_cons, Bool.false_eq_true, if_false]
    exact List.rdropWhile_concat_pos isWhiteSpace (a :: l) d h

/-- A non-empty text that trimming leaves as it is starts with a character that is
not white space. -/
theorem head_of_trimmed (s : Str) (hne : s ≠ []) (ht : trim s = s) :
    ∃ c t, s = c :: t ∧ isWhiteSpace c = false := by
  cases s with
  | nil => exact absurd rfl hne
  | cons c t =>
    refine ⟨c, t, rfl, ?_⟩
    by_contra hn
    have hc : isWhiteSpace c = true := by simpa using hn
    have h1 := length_trim_le t
    rw [← trim_cons_pos c t hc, ht] at h1
    simp at h1

/-- A non-empty text that trimming leaves as it is ends with a character that is
not white space. -/
theorem last_of_trimmed (s : Str) (hne : s ≠ []) (ht : trim s = s) :
    ∃ t d, s = t ++ [d] ∧ isWhiteSpace d = false := by
  rcases List.eq_nil_or_concat s with h | ⟨t, d, h⟩
  · exact absurd h hne
  · rw [List.concat_eq_append] at h
    subst h
    refine ⟨t, d, rfl, ?_⟩
    by_contra hn
    have hd : isWhiteSpace d = true := by simpa using hn
    have h1 := length_trim_le t
    rw [← trim_concat_pos d t hd, ht] at h1
    simp at h1

theorem trim_of_word (s : Str) (h : ∀ c ∈ s, isWhiteSpace c = false) : trim s = s := by
  cases s with
  | nil => rfl
  | cons c t =>
    rw [trim_cons_neg c t (h c (by simp))]
    have := rdropWhile_word_append isWhiteSpace t [] (fun d hd => h d (List.mem_cons_of_mem c hd))
    simp only [List.append_nil] at this
    rw [this]
    simp [List.rdropWhile]

theorem space_not_mem_of_word {s : Str} (h : ∀ c ∈ s, isWhiteSpace c = false) : ' ' ∉ s := by
  intro hm
  have := h ' ' hm
  revert this
  decide

/-- The first word of `n`, some spaces and `x`, for non-empty `n` and `x` without
white space at their ends and `n` without a space: trimming changes nothing and
the split stops at the first space. -/
theorem firstWord_word_spaces_word (n x : Str) (k : Nat) (hn : n ≠ []) (hx : x ≠ [])
    (hnt : trim n = n) (hns : ' ' ∉ n) (hxt : trim x = x) :
    firstWord (splitSpaces (trim (n ++ List.replicate (k + 1) ' ' ++ x))) = n := by
  obtain ⟨c, t, hct, hc⟩ := head_of_trimmed n hn hnt
  obtain ⟨y, d, hyd, hd⟩ := last_of_trimmed x hx hxt
  have htrim : trim (n ++ List.replicate (k + 1) ' ' ++ x) =
      n ++ List.replicate (k + 1) ' ' ++ x := by
    rw [hct, hyd, List.cons_append, List.cons_append, trim_cons_neg _ _ hc,
      ← List.append_assoc]
    rw [List.rdropWhile_concat_neg isWhiteSpace _ d (by simp [hd])]
  rw [htrim, List.replicate_succ, List.append_assoc, List.cons_append,
    firstWord_splitSpaces_append _ _ hns]

/-! ## Consequences of the laws of the lower-case conversion -/

theorem lower_nil {lc : Str → Str} (hl : LowerCaseLaws lc) : lc [] = [] := by
  have h := hl.ascii [] (by simp)
  simpa using h

theorem lower_slash {lc : Str → Str} (hl : LowerCaseLaws lc) (s : Str) :
    lc ('/' :: s) = '/' :: lc s := by
  have h := hl.separator [] s '/' (Or.inr rfl)
  rw [lower_nil hl] at h
  simpa using h

theorem lower_ws_left {lc : Str → Str} (hl : LowerCaseLaws lc) (pre s : Str)
    (hpre : ∀ c ∈ pre, isWhiteSpace c = true) : lc (pre ++ s) = pre ++ lc s := by
  induction pre with
  | nil => rfl
  | cons a pre ih =>
    rw [List.cons_append, hl.leading a _ (hpre a (by simp)),
      ih (fun c hc => hpre c (List.mem_cons_of_mem a hc)), List.cons_append]

theorem lower_ws_right {lc : Str → Str} (hl : LowerCaseLaws lc) (s post : Str)
    (hpost : ∀ c ∈ post, isWhiteSpace c = true) : lc (s ++ post) = lc s ++ post := by
  induction post generalizing s with
  | nil => simp
  | cons a post ih =>
    have h1 : s ++ a :: post = (s ++ [a]) ++ post := by simp
    rw [h1, ih (s ++ [a]) (fun c hc => hpost c (List.mem_cons_of_mem a hc)),
      hl.trailing a s (hpost a (by simp))]
    simp

theorem lower_spaces {lc : Str → Str} (hl : LowerCaseLaws lc) (a b : Str) (k : Nat) :
    lc (a ++ List.replicate (k + 1) ' ' ++ b) =
      lc a ++ List.replicate (k + 1) ' ' ++ lc b := by
  have h1 : lc (List.replicate k ' ' ++ b) = List.replicate k ' ' ++ lc b :=
    lower_ws_left hl _ _ (fun c hc => by
      rw [List.eq_of_mem_replicate hc]
      decide)
  rw [List.replicate_succ, List.append_assoc, List.cons_append,
    hl.separator a _ ' ' (Or.inl rfl), h1, List.append_assoc, List.cons_append]

/-- The first word of the trimmed, split lower-cased text is already lower case. -/
theorem lower_firstWord_lower {lc : Str → Str} (hl : LowerCaseLaws lc) (s : Str) :
    lc (firstWord (splitSpaces (trim (lc s)))) = firstWord (splitSpaces (trim (lc s))) := by
  obtain ⟨a, b, hab, _, _⟩ := trim_decomp (lc s)
  obtain ⟨r, hr, _⟩ := firstWord_decomp (trim (lc s))
  apply hl.stable s a _ (r ++ b)
  rw [List.append_assoc a, ← List.append_assoc _ r b, ← hr, ← List.append_assoc]
  exact hab

/-- When the first word of the trimmed body is `prefix` up to letter case, the
first word of the trimmed lower-cased body is `prefix`. -/
theorem firstWord_lower_body {lc : Str → Str} (hl : LowerCaseLaws lc) (body : Str)
    (hword : lc (firstWord (splitSpaces (trim body))) = "prefix".toList) :
    firstWord (splitSpaces (trim (lc body))) = "prefix".toList := by
  obtain ⟨pre, post, hb, hpre, hpost⟩ := trim_decomp body
  obtain ⟨r, hT, hr⟩ := firstWord_decomp (trim body)
  generalize firstWord (splitSpaces (trim body)) = w at hT hword
  generalize trim body = T at hT hb
  have hlT : ∃ z, lc T = "prefix".toList ++ z ∧ (z = [] ∨ ∃ q, z = ' ' :: q) := by
    rcases hr with h | ⟨q, h⟩
    · exact ⟨[], by rw [hT, h, List.append_nil, hword, List.append_nil], Or.inl rfl⟩
    · exact ⟨' ' :: lc q, by rw [hT, h, hl.separator w q ' ' (Or.inl rfl), hword],
        Or.inr ⟨lc q, rfl⟩⟩
  obtain ⟨z, hz, hzc⟩ := hlT
  have hwordfree : ∀ c ∈ "prefix".toList, isWhiteSpace c = false := by decide
  have hlb : lc body = pre ++ ("prefix".toList ++ (z ++ post)) := by
    rw [hb, List.append_assoc, lower_ws_left hl _ _ hpre, lower_ws_right hl _ _ hpost, hz,
      List.append_assoc]
  have htrim : trim (lc body) = "prefix".toList ++ (z ++ post).rdropWhile isWhiteSpace := by
    rw [hlb]
    unfold trim
    rw [dropWhile_pre_word isWhiteSpace pre _ _ hpre hwordfree (by decide),
      rdropWhile_word_append isWhiteSpace _ _ hwordfree]
  have hcases : (z ++ post).rdropWhile isWhiteSpace = [] ∨
      ∃ q, (z ++ post).rdropWhile isWhiteSpace = ' ' :: q := by
    rcases hzc with h | ⟨q, h⟩
    · left
      rw [h, List.nil_append, List.rdropWhile_eq_nil_iff]
      exact hpost
    · rw [h, List.cons_append]
      exact rdropWhile_cons_cases isWhiteSpace ' ' _
  rw [htrim]
  rcases hcases with h | ⟨q, h⟩
  · rw [h, List.append_nil]
    exact firstWord_splitSpaces_self _ (by decide)
  · rw [h]
    exact firstWord_splitSpaces_append _ _ (by decide)

/-! ## The send capability and the two routes of the dispatcher -/

theorem blank_iff (message : Str) :
    (message = [] ∨ trim message = []) ↔ message.all isWhiteSpace = true := by
  rw [List.all_eq_true, trim_eq_nil_iff]
  constructor
  · rintro (h | h)
    · subst h
      simp
    · exact h
  · exact fun h => Or.inr h

theorem sendMessage_eq {σ : Type} (api : Api) (threadID message : Str) (userData : σ) :
    sendMessage api threadID message userData =
      { userData := userData,
        trace := if message.all isWhiteSpace = true then []
          else [Effect.transport threadID message],
        thrown := none } := by
  unfold sendMessage
  by_cases h : message.all isWhiteSpace = true
  · rw [if_pos ((blank_iff message).mpr h), if_pos h]
    rfl
  · rw [if_neg (fun e => h ((blank_iff message).mp e)), if_neg h]
    cases ht : api.sendMessageThrows message threadID <;> simp [tryCatch, ht]

theorem not_blank_of_head (c : Char) (s : Str) (h : isWhiteSpace c = false) :
    ¬ ((c :: s).all isWhiteSpace = true) := by
  simp [h]

theorem sendMessage_notFound {σ : Type} (api : Api) (threadID name : Str) (userData : σ) :
    sendMessage api threadID ("Command not found: ".toList ++ name) userData =
      { userData := userData,
        trace := [Effect.transport threadID ("Command not found: ".toList ++ name)],
        thrown := none } := by
  rw [sendMessage_eq, if_neg]
  exact not_blank_of_head 'C' _ (by decide)

theorem sendMessage_failure {σ : Type} (api : Api) (threadID m : Str) (userData : σ) :
    sendMessage api threadID ("Error executing command: ".toList ++ m) userData =
      { userData := userData,
        trace := [Effect.transport threadID ("Error executing command: ".toList ++ m)],
        thrown := none } := by
  rw [sendMessage_eq, if_neg]
  exact not_blank_of_head 'E' _ (by decide)

theorem starts_with_slash {body : Str} (h : prefixStr.isPrefixOf body = true) :
    ∃ rest, body = '/' :: rest := by
  cases body with
  | nil => simp [prefixStr, List.isPrefixOf] at h
  | cons c rest =>
    refine ⟨rest, ?_⟩
    have : ('/' :: ([] : Str)).isPrefixOf (c :: rest) = true := h
    simp [List.isPrefixOf] at this
    rw [this]

theorem firstWord_slash_ne {lc : Str → Str} (hl : LowerCaseLaws lc) (rest : Str) :
    lc (firstWord (splitSpaces (trim (lc ('/' :: rest))))) ≠ "prefix".toList := by
  rw [lower_slash hl, trim_cons_neg _ _ (by decide), firstWord_splitSpaces_cons _ _ (by decide),
    lower_slash hl]
  intro h
  have h2 := (List.cons.inj h).1
  revert h2
  decide

/-- The `else if (message.startsWith(prefix))` route: a body that starts with the
prefix never takes the bypass, and the name that is looked up is the first word
of the lower-cased, stripped and trimmed body. -/
theorem handleMessage_slash {σ : Type} {lc : Str → Str} (hl : LowerCaseLaws lc) (api : Api)
    (commands : CommandMap σ) (config : Config)
    (event : Event) (args : List Str) (userData : σ)
    (hp : prefixStr.isPrefixOf event.body = true) :
    handleMessage lc api commands config event args userData =
      match commands.get
          (firstWord (splitSpaces (trim ((lc event.body).drop prefixStr.length)))) with
      | some command =>
        tryCatch (awaitExecute command event args config userData)
          (catchBlock api event.threadID)
      | none =>
        notAwaited (sendMessage api event.threadID
          ("Command not found: ".toList ++
            firstWord (splitSpaces (trim ((lc event.body).drop prefixStr.length))))
          userData) := by
  obtain ⟨rest, hb⟩ := starts_with_slash hp
  have hdrop : (lc event.body).drop prefixStr.length = lc rest := by
    rw [hb, lower_slash hl]
    rfl
  have hlow : lc (firstWord (splitSpaces (trim
      ((lc event.body).drop prefixStr.length)))) =
      firstWord (splitSpaces (trim ((lc event.body).drop prefixStr.length))) := by
    rw [hdrop]
    exact lower_firstWord_lower hl rest
  have hstart : prefixStr.isPrefixOf (lc event.body) = true := by
    rw [hb, lower_slash hl]
    simp [prefixStr, List.isPrefixOf]
  unfold handleMessage
  simp only []
  rw [if_neg (fun h => firstWord_slash_ne hl rest (by rw [← hb]; exact h.1)), if_pos hstart,
    hlow]

/-- The bypass route: when the first word of the lower-cased body is `prefix` and
the registry has that key, the registered command runs with the other words. -/
theorem handleMessage_bypass {σ : Type} {lc : Str → Str} (hl : LowerCaseLaws lc) (api : Api)
    (commands : CommandMap σ) (config : Config)
    (event : Event) (args : List Str) (userData : σ) (command : Command σ)
    (hw : firstWord (splitSpaces (trim (lc event.body))) = "prefix".toList)
    (hreg : commands.get "prefix".toList = some command) :
    handleMessage lc api commands config event args userData =
      tryCatch
        (awaitExecute command event (splitSpaces (trim (lc event.body))).tail
          config userData)
        (catchBlock api event.threadID) := by
  have hc : lc (firstWord (splitSpaces (trim (lc event.body)))) = "prefix".toList := by
    rw [lower_firstWord_lower hl, hw]
  have hh : commands.has "prefix".toList = true := by
    unfold CommandMap.has
    rw [hreg]
    rfl
  unfold handleMessage
  simp only []
  rw [if_pos ⟨hc, hh⟩, hreg]

theorem tryCatch_awaitExecute {σ : Type} (api : Api) (command : Command σ) (event : Event)
    (a : List Str) (config : Config) (userData : σ) :
    tryCatch (awaitExecute command event a config userData) (catchBlock api event.threadID) =
      { userData := (command.execute event a config.admins userData).userData,
        trace := Effect.execute command a ::
          ((command.execute event a config.admins userData).sent.map
            (fun m => Effect.transport m.1 m.2) ++
          failureReply event.threadID (command.execute event a config.admins userData).thrown),
        thrown := escapes (command.execute event a config.admins userData).thrown } := by
  unfold tryCatch awaitExecute
  simp only []
  cases ht : (command.execute event a config.admins userData).thrown with
  | none => simp only [failureReply, escapes, List.append_nil]
  | some e =>
    cases e <;>
      simp only [catchBlock, Thrown.messageText, sendMessage_failure, notAwaited, failureReply,
        escapes, List.append_nil, List.cons_append]

/-- The callback on a `message` event of another sender: when `handleMessage`
completes, `saveUserData` runs once, after it. -/
theorem listenCallback_of_resolved {σ : Type} (lc : Str → Str) (api : Api) (commands : CommandMap σ)
    (config : Config) (event : Event) (w : World σ)
    (ht : event.type = "message".toList) (hs : event.senderID ≠ api.currentUserID)
    (hr : (handleMessage lc api commands config event (splitSpaces (trim event.body))
      w.userData).thrown = none) :
    listenCallback lc api commands config none event w =
      { world :=
          { userData := (handleMessage lc api commands config event (splitSpaces (trim event.body))
              w.userData).userData,
            file := if w.writable = true then
                some (handleMessage lc api commands config event (splitSpaces (trim event.body))
                  w.userData).userData
              else w.file,
            writable := w.writable },
        trace := (handleMessage lc api commands config event (splitSpaces (trim event.body))
            w.userData).trace ++
          [Effect.save (handleMessage lc api commands config event (splitSpaces (trim event.body))
            w.userData).userData],
        thrown := none } := by
  unfold listenCallback
  rw [if_neg (by simp), if_pos ht, if_neg hs]
  simp only [hr, saveUserData]
  cases w.writable <;> simp

/-- The callback on a `message` event of another sender: when `handleMessage`
rejects, the callback rejects with the same value and `saveUserData` does not
run. -/
theorem listenCallback_of_rejected {σ : Type} (lc : Str → Str) (api : Api) (commands : CommandMap σ)
    (config : Config) (event : Event) (w : World σ) (e : Thrown)
    (ht : event.type = "message".toList) (hs : event.senderID ≠ api.currentUserID)
    (hr : (handleMessage lc api commands config event (splitSpaces (trim event.body))
      w.userData).thrown = some e) :
    listenCallback lc api commands config none event w =
      { world := { w with userData := (handleMessage lc api commands config event
          (splitSpaces (trim event.body)) w.userData).userData },
        trace := (handleMessage lc api commands config event (splitSpaces (trim event.body))
            w.userData).trace,
        thrown := some e } := by
  unfold listenCallback
  rw [if_neg (by simp), if_pos ht, if_neg hs]
  simp only [hr]

/-! ## The registry -/

theorem get_set_self {σ : Type} (m : CommandMap σ) (k : Str) (v : Command σ) :
    (m.set k v).get k = some v := by
  induction m with
  | nil => simp [CommandMap.set, CommandMap.get]
  | cons e rest ih =>
    obtain ⟨k1, v1⟩ := e
    unfold CommandMap.set
    by_cases h : k1 = k
    · rw [if_pos h]
      simp [CommandMap.get, h]
    · rw [if_neg h]
      simp [CommandMap.get, h, ih]

theorem get_set_other {σ : Type} (m : CommandMap σ) (k key : Str) (v : Command σ)
    (hk : k ≠ key) : (m.set k v).get key = m.get key := by
  induction m with
  | nil => simp [CommandMap.set, CommandMap.get, hk]
  | cons e rest ih =>
    obtain ⟨k1, v1⟩ := e
    unfold CommandMap.set
    by_cases h : k1 = k
    · rw [if_pos h]
      have h2 : k1 ≠ key := fun e => hk (h ▸ e)
      simp [CommandMap.get, h2]
    · rw [if_neg h]
      by_cases h2 : k1 = key
      · simp [CommandMap.get, h2]
      · simp [CommandMap.get, h2, ih]

theorem loadCommands_nil {σ : Type} (lc : Str → Str) (m : CommandMap σ) : loadCommands lc [] m = m := rfl

theorem loadCommands_append {σ : Type} (lc : Str → Str) (xs ys : List (Str × Option (Command σ)))
    (m : CommandMap σ) : loadCommands lc (xs ++ ys) m = loadCommands lc ys (loadCommands lc xs m) := by
  simp [loadCommands, List.filter_append, List.foldl_append]

theorem loadCommands_cons_named {σ : Type} (lc : Str → Str) (file n : Str) (plugin : Command σ)
    (rest : List (Str × Option (Command σ))) (m : CommandMap σ)
    (hfile : ".js".toList.isSuffixOf file = true) (hname : plugin.name = some n)
    (hne : n ≠ []) :
    loadCommands lc ((file, some plugin) :: rest) m =
      loadCommands lc rest (m.set (lc n) plugin) := by
  simp only [loadCommands, List.filter_cons, hfile, if_true, List.foldl_cons, hname, if_neg hne]

/-- Files that register nothing under `key` leave the entry of `key` as it is. -/
theorem get_loadCommands_other {σ : Type} (lc : Str → Str) (key : Str)
    (files : List (Str × Option (Command σ))) (m : CommandMap σ)
    (h : ∀ f ∈ files, ".js".toList.isSuffixOf f.1 = true → ∀ q name, f.2 = some q →
      q.name = some name → name ≠ [] → lc name ≠ key) :
    (loadCommands lc files m).get key = m.get key := by
  induction files generalizing m with
  | nil => rfl
  | cons f rest ih =>
    have hrest := fun g hg => h g (List.mem_cons_of_mem f hg)
    have hf := h f (List.mem_cons_self f rest)
    obtain ⟨file, opt⟩ := f
    by_cases hs : ".js".toList.isSuffixOf file = true
    · cases opt with
      | none =>
        have : loadCommands lc ((file, none) :: rest) m = loadCommands lc rest m := by
          simp only [loadCommands, List.filter_cons, hs, if_true, List.foldl_cons]
        rw [this, ih m hrest]
      | some q =>
        cases hq : q.name with
        | none =>
          have : loadCommands lc ((file, some q) :: rest) m = loadCommands lc rest m := by
            simp only [loadCommands, List.filter_cons, hs, if_true, List.foldl_cons, hq]
          rw [this, ih m hrest]
        | some name =>
          by_cases hn : name = []
          · have : loadCommands lc ((file, some q) :: rest) m = loadCommands lc rest m := by
              simp only [loadCommands, List.filter_cons, hs, if_true, List.foldl_cons, hq,
                if_pos hn]
            rw [this, ih m hrest]
          · rw [loadCommands_cons_named lc file name q rest m hs hq hn, ih _ hrest,
              get_set_other _ _ _ _ (hf hs q name rfl hq hn)]
    · have : loadCommands lc ((file, opt) :: rest) m = loadCommands lc rest m := by
        simp only [loadCommands, List.filter_cons, hs]
        rfl
      rw [this, ih m hrest]

/-- The entry of a plugin named `n` after `loadCommands`, when no later file
registers the same lower-cased name. -/
theorem get_loadCommands_named {σ : Type} (lc : Str → Str) (before after : List (Str × Option (Command σ)))
    (file n : Str) (plugin : Command σ) (m : CommandMap σ)
    (hfile : ".js".toList.isSuffixOf file = true) (hname : plugin.name = some n)
    (hne : n ≠ [])
    (hlast : ∀ f ∈ after, ".js".toList.isSuffixOf f.1 = true → ∀ q name, f.2 = some q →
      q.name = some name → name ≠ [] → lc name ≠ lc n) :
    (loadCommands lc (before ++ (file, some plugin) :: after) m).get (lc n) =
      some plugin := by
  rw [loadCommands_append, loadCommands_cons_named lc file n plugin after _ hfile hname hne,
    get_loadCommands_other lc _ _ _ hlast, get_set_self]

/-! ## Sample evaluations -/

/-- The split agrees with `split(/ +/)` on runs, on spaces at the ends and on the
empty string. -/
theorem splitSpaces_samples :
    splitSpaces "a  b".toList = ["a".toList, "b".toList] ∧
    splitSpaces " a ".toList = [[], "a".toList, []] ∧
    splitSpaces [] = [[]] ∧
    splitSpaces "   ".toList = [[], []] ∧
    splitSpaces "a\tb c".toList = ["a\tb".toList, "c".toList] := by
  decide

/-- Trimming and lower-casing on sample ASCII texts. -/
theorem trim_lower_samples :
    trim " \t a b\n ".toList = "a b".toList ∧
    asciiToLowerCase "/Say Hi".toList = "/say hi".toList := by
  decide

/-! ## The claims -/

/-- C1. Command not found: when the body starts with the prefix `/` and the
command name (the lower-cased body with the prefix stripped, trimmed, first
space-separated word) has no entry in the registry, `handleMessage` makes exactly
one transport call, to the thread of the event, with the text
`Command not found: ` followed by that name; it calls no `execute`, leaves the
session state as it was and completes normally. -/
theorem C1_command_not_found {σ : Type} {toLowerCase : Str → Str}
    (hl : LowerCaseLaws toLowerCase) (api : Api) (commands : CommandMap σ)
    (config : Config) (event : Event) (args : List Str) (userData : σ)
    (hp : prefixStr.isPrefixOf event.body = true)
    (hn : commands.get
      (firstWord (splitSpaces (trim ((toLowerCase event.body).drop prefixStr.length)))) =
        none) :
    handleMessage toLowerCase api commands config event args userData =
      { userData := userData,
        trace := [Effect.transport event.threadID
          ("Command not found: ".toList ++
            firstWord (splitSpaces (trim ((toLowerCase event.body).drop prefixStr.length))))],
        thrown := none } := by
  rw [handleMessage_slash hl api commands config event args userData hp, hn]
  simp only []
  rw [sendMessage_notFound]
  rfl

/-- C1, at the body `/Unknownxyz  some args` (two spaces after the name) and a
registry that has `help` only: the one message is `Command not found: unknownxyz`. -/
theorem C1_command_not_found_witness :
    handleMessage asciiToLowerCase api0 [("help".toList, quietCommand "help")] cfg0
        (msg "/Unknownxyz  some args")
        ["/Unknownxyz".toList, "some".toList, "args".toList] [] =
      { userData := [],
        trace := [Effect.transport "t1".toList "Command not found: unknownxyz".toList],
        thrown := none } :=
  C1_command_not_found asciiToLowerCase_laws api0 [("help".toList, quietCommand "help")] cfg0
    (msg "/Unknownxyz  some args") ["/Unknownxyz".toList, "some".toList, "args".toList] []
    (by decide) (by rfl)

/-- C2. Failure becomes a reply: when the command that `handleMessage` resolves,
by the bypass (first word `prefix`) or by the prefix `/`, fails with an `Error`
whose message is `m`, having sent nothing itself, `handleMessage` calls that
`execute` once, makes exactly one transport call, to the thread of the event,
with the text `Error executing command: ` followed by `m`, and completes
normally. -/
theorem C2_failure_becomes_reply {σ : Type} {toLowerCase : Str → Str}
    (hl : LowerCaseLaws toLowerCase) (api : Api) (commands : CommandMap σ)
    (config : Config) (event : Event) (args a : List Str) (userData : σ)
    (command : Command σ) (m : Str)
    (hres :
      (firstWord (splitSpaces (trim (toLowerCase event.body))) = "prefix".toList ∧
        commands.get "prefix".toList = some command ∧
        a = (splitSpaces (trim (toLowerCase event.body))).tail) ∨
      (prefixStr.isPrefixOf event.body = true ∧
        commands.get (firstWord (splitSpaces
          (trim ((toLowerCase event.body).drop prefixStr.length)))) = some command ∧
        a = args))
    (hthrow : (command.execute event a config.admins userData).thrown = some (.error m))
    (hsent : (command.execute event a config.admins userData).sent = []) :
    handleMessage toLowerCase api commands config event args userData =
      { userData := (command.execute event a config.admins userData).userData,
        trace := [Effect.execute command a,
          Effect.transport event.threadID ("Error executing command: ".toList ++ m)],
        thrown := none } := by
  have key : tryCatch (awaitExecute command event a config userData)
      (catchBlock api event.threadID) =
      { userData := (command.execute event a config.admins userData).userData,
        trace := [Effect.execute command a,
          Effect.transport event.threadID ("Error executing command: ".toList ++ m)],
        thrown := none } := by
    simp only [tryCatch, awaitExecute, hthrow, hsent, catchBlock, Thrown.messageText,
      sendMessage_failure, notAwaited, List.map_nil, List.singleton_append]
  rcases hres with ⟨hw, hreg, ha⟩ | ⟨hp, hreg, ha⟩
  · rw [handleMessage_bypass hl api commands config event args userData command hw hreg,
      ← ha, key]
  · rw [handleMessage_slash hl api commands config event args userData hp, hreg]
    simp only []
    rw [← ha, key]

/-- C2, at a plugin `fail` that throws `Error("boom")`: the one reply is
`Error executing command: boom`. -/
theorem C2_failure_becomes_reply_witness :
    handleMessage asciiToLowerCase api0
        [("fail".toList, failingCommand "fail" (.error "boom".toList))] cfg0
        (msg "/fail now") ["/fail".toList, "now".toList] [] =
      { userData := [],
        trace := [Effect.execute (failingCommand "fail" (.error "boom".toList))
            ["/fail".toList, "now".toList],
          Effect.transport "t1".toList "Error executing command: boom".toList],
        thrown := none } :=
  C2_failure_becomes_reply asciiToLowerCase_laws api0
    [("fail".toList, failingCommand "fail" (.error "boom".toList))]
    cfg0 (msg "/fail now") ["/fail".toList, "now".toList] ["/fail".toList, "now".toList] []
    (failingCommand "fail" (.error "boom".toList)) "boom".toList
    (Or.inr ⟨by decide, by rfl, rfl⟩) rfl rfl

/-- C3. A failure of a plugin does escape the dispatcher when the value thrown is
`null` or `undefined`: the `catch` block reads `error.message`, which throws a
`TypeError`, so `handleMessage` rejects, and the callback rejects with it before
`saveUserData`. With an `Error` or a string the dispatcher replies and
completes. -/
theorem C3_null_rejection_escapes :
    (handleMessage asciiToLowerCase api0 [("fail".toList, failingCommand "fail" .null)] cfg0
        (msg "/fail") ["/fail".toList] []).thrown =
      some (.error "Cannot read properties of null (reading 'message')".toList) ∧
    (handleMessage asciiToLowerCase api0 [("fail".toList, failingCommand "fail" .undefined)]
        cfg0 (msg "/fail") ["/fail".toList] []).thrown =
      some (.error "Cannot read properties of undefined (reading 'message')".toList) ∧
    (listenCallback asciiToLowerCase api0 [("fail".toList, failingCommand "fail" .null)] cfg0
        none (msg "/fail") w0).thrown =
      some (.error "Cannot read properties of null (reading 'message')".toList) ∧
    (handleMessage asciiToLowerCase api0
        [("fail".toList, failingCommand "fail" (.string "oops".toList))] cfg0
        (msg "/fail") ["/fail".toList] []).thrown = none := by
  refine ⟨?_, ?_, ?_, ?_⟩ <;> decide

/-- C4. Bypass: when the registry has the key `prefix` and the first word of the
trimmed body, split at runs of spaces, is `prefix` up to letter case,
`handleMessage` calls the `execute` of that entry once, with the words of the
lower-cased body after the first; nothing else is executed, and the only
message `handleMessage` itself may send is the reply to a failure of that call. -/
theorem C4_bypass_runs_registered_command {σ : Type} {toLowerCase : Str → Str}
    (hl : LowerCaseLaws toLowerCase) (api : Api) (commands : CommandMap σ)
    (config : Config) (event : Event) (args : List Str) (userData : σ) (command : Command σ)
    (hreg : commands.get "prefix".toList = some command)
    (hword : toLowerCase (firstWord (splitSpaces (trim event.body))) = "prefix".toList) :
    handleMessage toLowerCase api commands config event args userData =
      { userData := (command.execute event (splitSpaces (trim (toLowerCase event.body))).tail
          config.admins userData).userData,
        trace := Effect.execute command (splitSpaces (trim (toLowerCase event.body))).tail ::
          ((command.execute event (splitSpaces (trim (toLowerCase event.body))).tail
            config.admins userData).sent.map (fun m => Effect.transport m.1 m.2) ++
          failureReply event.threadID
            (command.execute event (splitSpaces (trim (toLowerCase event.body))).tail
              config.admins userData).thrown),
        thrown := escapes
          (command.execute event (splitSpaces (trim (toLowerCase event.body))).tail
            config.admins userData).thrown } := by
  rw [handleMessage_bypass hl api commands config event args userData command
      (firstWord_lower_body hl event.body hword) hreg,
    tryCatch_awaitExecute]

/-- C4, at the body ` PREFIX  Foo Bar ` (spaces at both ends, two spaces after the
first word): the plugin runs with the lower-cased arguments `["foo", "bar"]`. -/
theorem C4_bypass_runs_registered_command_witness :
    handleMessage asciiToLowerCase api0 [("prefix".toList, quietCommand "prefix")] cfg0
        (msg " PREFIX  Foo Bar ") ["PREFIX".toList, "Foo".toList, "Bar".toList] [] =
      { userData := [],
        trace := [Effect.execute (quietCommand "prefix") ["foo".toList, "bar".toList]],
        thrown := none } :=
  C4_bypass_runs_registered_command asciiToLowerCase_laws api0
    [("prefix".toList, quietCommand "prefix")] cfg0
    (msg " PREFIX  Foo Bar ") ["PREFIX".toList, "Foo".toList, "Bar".toList] []
    (quietCommand "prefix") (by rfl) (by decide)

/-- C5. Arguments keep their case: when the body starts with `/` and names a
registered command, the argument list that `handleMessage` passes to `execute`
is the list it was given, and the list the callback gives it is the split of
the trimmed body as it was sent, without lower-casing. -/
theorem C5_arguments_keep_case {σ : Type} {toLowerCase : Str → Str}
    (hl : LowerCaseLaws toLowerCase) (api : Api) (commands : CommandMap σ)
    (config : Config) (event : Event) (w : World σ) (command : Command σ)
    (ht : event.type = "message".toList) (hs : event.senderID ≠ api.currentUserID)
    (hp : prefixStr.isPrefixOf event.body = true)
    (hreg : commands.get (firstWord (splitSpaces
      (trim ((toLowerCase event.body).drop prefixStr.length)))) = some command) :
    (∀ (args : List Str) (userData : σ),
      (handleMessage toLowerCase api commands config event args userData).trace =
        Effect.execute command args ::
          ((command.execute event args config.admins userData).sent.map
            (fun m => Effect.transport m.1 m.2) ++
          failureReply event.threadID
            (command.execute event args config.admins userData).thrown)) ∧
    (listenCallback toLowerCase api commands config none event w).trace =
      Effect.execute command (splitSpaces (trim event.body)) ::
        ((command.execute event (splitSpaces (trim event.body)) config.admins
            w.userData).sent.map (fun m => Effect.transport m.1 m.2) ++
          failureReply event.threadID
            (command.execute event (splitSpaces (trim event.body)) config.admins
              w.userData).thrown ++
          match escapes (command.execute event (splitSpaces (trim event.body)) config.admins
              w.userData).thrown with
          | none => [Effect.save (command.execute event (splitSpaces (trim event.body))
              config.admins w.userData).userData]
          | some _ => []) := by
  have hm : ∀ (args : List Str) (userData : σ),
      handleMessage toLowerCase api commands config event args userData =
        { userData := (command.execute event args config.admins userData).userData,
          trace := Effect.execute command args ::
            ((command.execute event args config.admins userData).sent.map
              (fun m => Effect.transport m.1 m.2) ++
            failureReply event.threadID
              (command.execute event args config.admins userData).thrown),
          thrown := escapes (command.execute event args config.admins userData).thrown } := by
    intro args userData
    rw [handleMessage_slash hl api commands config event args userData hp, hreg]
    simp only []
    rw [tryCatch_awaitExecute]
  refine ⟨fun args userData => by rw [hm], ?_⟩
  cases he : escapes (command.execute event (splitSpaces (trim event.body)) config.admins
      w.userData).thrown with
  | none =>
    rw [listenCallback_of_resolved toLowerCase api commands config event w ht hs
      (by rw [hm]; exact he), hm]
    simp
  | some e =>
    rw [listenCallback_of_rejected toLowerCase api commands config event w e ht hs
      (by rw [hm]; exact he), hm]
    simp

/-- C5, at the body `/Say Hello World` with a registered command `say`: the
arguments are `/Say`, `Hello` and `World`, as written. -/
theorem C5_arguments_keep_case_witness :
    (listenCallback asciiToLowerCase api0 [("say".toList, quietCommand "say")] cfg0 none
        (msg "/Say Hello World") w0).trace =
      [Effect.execute (quietCommand "say") ["/Say".toList, "Hello".toList, "World".toList],
        Effect.save []] :=
  (C5_arguments_keep_case asciiToLowerCase_laws api0 [("say".toList, quietCommand "say")] cfg0
    (msg "/Say Hello World") w0 (quietCommand "say") rfl (by decide) (by decide) (by rfl)).2

/-- C6, as stated, fails in two ways. A plugin that `loadCommands` registers is
overwritten by a later file whose name is the same up to letter case: with
`a.js` named `Help` and `b.js` named `help`, the body `/Help` runs the plugin
of `b.js` (the one that marks the sender), not the plugin of `a.js`. And a name
that ends in white space other than a space is never found: the plugin named
`Help` followed by a tab is registered (the name is not empty and has no
space), and the body `/help` followed by a tab, which equals the name up to
letter case, gives `Command not found: help`, because the lookup trims the
name. -/
theorem C6_overwritten_or_untrimmed_name_not_resolved :
    ((loadCommands asciiToLowerCase [("a.js".toList, some (quietCommand "Help"))] []).get
        "help".toList = some (quietCommand "Help") ∧
      handleMessage asciiToLowerCase api0
          (loadCommands asciiToLowerCase
            [("a.js".toList, some (quietCommand "Help")),
              ("b.js".toList, some (markCommand "help" none))] [])
          cfg0 (msg "/Help") ["/Help".toList] [] =
        { userData := [("user1".toList, "x".toList)],
          trace := [Effect.execute (markCommand "help" none) ["/Help".toList]],
          thrown := none }) ∧
    ("Help\t".toList ≠ [] ∧ ' ' ∉ "Help\t".toList ∧
      asciiToLowerCase "help\t".toList = asciiToLowerCase "Help\t".toList ∧
      (loadCommands asciiToLowerCase [("help.js".toList, some (quietCommand "Help\t"))] []).get
        (asciiToLowerCase "Help\t".toList) = some (quietCommand "Help\t") ∧
      handleMessage asciiToLowerCase api0
          (loadCommands asciiToLowerCase [("help.js".toList, some (quietCommand "Help\t"))] [])
          cfg0 (msg "/help\t") ["/help".toList] [] =
        { userData := [],
          trace := [Effect.transport "t1".toList "Command not found: help".toList],
          thrown := none }) := by
  refine ⟨⟨?_, ?_⟩, by decide, by decide, by decide, ?_, ?_⟩ <;> rfl

/-- C6, amended. Case-insensitive lookup: for a plugin that `loadCommands` leaves
registered under a name `n` (a `.js` file, the last one with that lower-cased
name; `n` not empty, without spaces and without white space at its ends), and
for every `v` equal to `n` up to letter case, the body `/` followed by `v`
resolves to that plugin: its `execute` is called once, with the argument list
given, and no `Command not found` reply is sent. -/
theorem C6_case_insensitive_lookup {σ : Type} {toLowerCase : Str → Str}
    (hl : LowerCaseLaws toLowerCase) (api : Api) (config : Config)
    (before after : List (Str × Option (Command σ))) (file n v : Str) (plugin : Command σ)
    (event : Event) (args : List Str) (userData : σ)
    (hfile : ".js".toList.isSuffixOf file = true) (hname : plugin.name = some n)
    (hne : n ≠ []) (hsp : ' ' ∉ n) (htrim : trim n = n)
    (hlast : ∀ f ∈ after, ".js".toList.isSuffixOf f.1 = true → ∀ q name, f.2 = some q →
      q.name = some name → name ≠ [] → toLowerCase name ≠ toLowerCase n)
    (hv : toLowerCase v = toLowerCase n) (hbody : event.body = '/' :: v) :
    handleMessage toLowerCase api
        (loadCommands toLowerCase (before ++ (file, some plugin) :: after) []) config event
        args userData =
      { userData := (plugin.execute event args config.admins userData).userData,
        trace := Effect.execute plugin args ::
          ((plugin.execute event args config.admins userData).sent.map
            (fun m => Effect.transport m.1 m.2) ++
          failureReply event.threadID (plugin.execute event args config.admins userData).thrown),
        thrown := escapes (plugin.execute event args config.admins userData).thrown } := by
  have hp : prefixStr.isPrefixOf event.body = true := by
    rw [hbody]
    simp [prefixStr, List.isPrefixOf]
  have hdrop : (toLowerCase event.body).drop prefixStr.length = toLowerCase n := by
    rw [hbody, lower_slash hl, ← hv]
    rfl
  have hkey : firstWord (splitSpaces (trim ((toLowerCase event.body).drop prefixStr.length))) =
      toLowerCase n := by
    rw [hdrop, hl.ends n htrim, firstWord_splitSpaces_self _ (fun h => hsp (hl.spaces n h))]
  rw [handleMessage_slash hl api _ config event args userData hp, hkey,
    get_loadCommands_named toLowerCase before after file n plugin [] hfile hname hne hlast]
  simp only []
  rw [tryCatch_awaitExecute]

/-- C6, amended, at a plugin named `Help` in `help.js`, loaded after a plugin
`say` and before a file that is not a `.js` file, and the body `/HELP`. -/
theorem C6_case_insensitive_lookup_witness :
    handleMessage asciiToLowerCase api0
        (loadCommands asciiToLowerCase
          ([("say.js".toList, some (quietCommand "say"))] ++
            ("help.js".toList, some (quietCommand "Help")) ::
              [("notes.txt".toList, some (markCommand "help" none))]) [])
        cfg0 (msg "/HELP") ["/HELP".toList] [] =
      { userData := [],
        trace := [Effect.execute (quietCommand "Help") ["/HELP".toList]],
        thrown := none } :=
  C6_case_insensitive_lookup asciiToLowerCase_laws api0 cfg0
    [("say.js".toList, some (quietCommand "say"))]
    [("notes.txt".toList, some (markCommand "help" none))]
    "help.js".toList "Help".toList "HELP".toList
    (quietCommand "Help") (msg "/HELP") ["/HELP".toList] [] (by decide) rfl (by decide)
    (by decide) (by decide)
    (fun f hf hs => by
      rw [List.mem_singleton] at hf
      subst hf
      exact absurd hs (by decide))
    (by decide) rfl

/-- C7. The state is not persisted after every message: when the plugin has set
`state[senderID] = "x"` and then rejects with `null`, `handleMessage` rejects,
the callback stops there and `saveUserData` is not called: the file is as it
was while the session state in memory has changed. When the same plugin
completes, the state is saved once, after the command, and reloading the file
gives it back. -/
theorem C7_no_save_after_null_rejection :
    (listenCallback asciiToLowerCase api0 [("mark".toList, markCommand "mark" (some .null))]
        cfg0 none (msg "/mark") w0).trace =
      [Effect.execute (markCommand "mark" (some .null)) ["/mark".toList]] ∧
    (listenCallback asciiToLowerCase api0 [("mark".toList, markCommand "mark" (some .null))]
        cfg0 none (msg "/mark") w0).world.userData = [("user1".toList, "x".toList)] ∧
    (listenCallback asciiToLowerCase api0 [("mark".toList, markCommand "mark" (some .null))]
        cfg0 none (msg "/mark") w0).world.file = none ∧
    (listenCallback asciiToLowerCase api0 [("mark".toList, markCommand "mark" none)] cfg0 none
        (msg "/mark") w0).trace =
      [Effect.execute (markCommand "mark" none) ["/mark".toList],
        Effect.save [("user1".toList, "x".toList)]] ∧
    (loadUserData { (listenCallback asciiToLowerCase api0
        [("mark".toList, markCommand "mark" none)] cfg0 none
        (msg "/mark") w0).world with userData := [] }).userData =
      [("user1".toList, "x".toList)] := by
  refine ⟨?_, ?_, ?_, ?_, ?_⟩
  · rfl
  · decide
  · decide
  · rfl
  · decide

/-- C8. Blank sends are dropped: `sendMessage` makes no transport call when the
text is empty or consists only of white space, and otherwise exactly one, with
that text and that thread; it returns normally in both cases, also when the
transport call throws. -/
theorem C8_blank_sends_dropped {σ : Type} (api : Api) (threadID text : Str) (userData : σ) :
    sendMessage api threadID text userData =
      { userData := userData,
        trace := if text.all isWhiteSpace = true then [] else [Effect.transport threadID text],
        thrown := none } :=
  sendMessage_eq api threadID text userData

/-- C9. Self-messages are discarded: when the sender of the event is the account
of the bot, the callback returns at once: nothing is executed, nothing is sent,
nothing is saved and the process state is as it was. -/
theorem C9_self_messages_discarded {σ : Type} (toLowerCase : Str → Str) (api : Api)
    (commands : CommandMap σ)
    (config : Config) (err : Option Thrown) (event : Event) (w : World σ)
    (hself : event.senderID = api.currentUserID) :
    listenCallback toLowerCase api commands config err event w =
      { world := w, trace := [], thrown := none } := by
  unfold listenCallback
  by_cases he : err.isSome = true
  · rw [if_pos he]
  · rw [if_neg he]
    by_cases ht : event.type = "message".toList
    · rw [if_pos ht, if_pos hself]
    · rw [if_neg ht]

/-- C9, at a message of the bot itself whose body names a registered command. -/
theorem C9_self_messages_discarded_witness :
    listenCallback asciiToLowerCase api0 [("help".toList, quietCommand "help")] cfg0 none
        { msg "/help" with senderID := "bot".toList } w0 =
      { world := w0, trace := [], thrown := none } :=
  C9_self_messages_discarded asciiToLowerCase api0 [("help".toList, quietCommand "help")] cfg0
    none { msg "/help" with senderID := "bot".toList } w0 rfl

/-- C10, as stated, fails: the words are split at spaces only. With `help`
registered, the body `/help`, a tab and `me` is looked up as one name and
answered `Command not found`, no command runs; and the first word of `prefix`,
a tab and `foo` is the whole text, not `prefix`. -/
theorem C10_tab_does_not_split :
    handleMessage asciiToLowerCase api0 [("help".toList, quietCommand "help")] cfg0
        (msg "/help\tme") ["/help\tme".toList] [] =
      { userData := [],
        trace := [Effect.transport "t1".toList "Command not found: help\tme".toList],
        thrown := none } ∧
    firstWord (splitSpaces (trim (asciiToLowerCase "prefix\tfoo".toList))) =
      "prefix\tfoo".toList := by
  refine ⟨?_, ?_⟩
  · rfl
  · decide

/-- C10, amended. Words are split at runs of the space character: for a word `n`
(not empty, without white space) whose lower-cased form is a key of the
registry, a run of one or more spaces and a word `x`, the body `/`, `n`, the
spaces and `x` resolves to the command registered under that key; and the first
word of `prefix`, the spaces and `x` is `prefix`. -/
theorem C10_tokens_split_at_spaces {σ : Type} {toLowerCase : Str → Str}
    (hl : LowerCaseLaws toLowerCase) (api : Api) (commands : CommandMap σ)
    (config : Config) (event : Event) (args : List Str) (userData : σ) (n x : Str) (k : Nat)
    (command : Command σ)
    (hn : n ≠ []) (hx : x ≠ [])
    (hnw : ∀ c ∈ n, isWhiteSpace c = false) (hxw : ∀ c ∈ x, isWhiteSpace c = false)
    (hreg : commands.get (toLowerCase n) = some command)
    (hbody : event.body = '/' :: (n ++ List.replicate (k + 1) ' ' ++ x)) :
    handleMessage toLowerCase api commands config event args userData =
      { userData := (command.execute event args config.admins userData).userData,
        trace := Effect.execute command args ::
          ((command.execute event args config.admins userData).sent.map
            (fun m => Effect.transport m.1 m.2) ++
          failureReply event.threadID
            (command.execute event args config.admins userData).thrown),
        thrown := escapes (command.execute event args config.admins userData).thrown } ∧
    firstWord (splitSpaces (trim (toLowerCase
      ("prefix".toList ++ List.replicate (k + 1) ' ' ++ x)))) = "prefix".toList := by
  have hp : prefixStr.isPrefixOf event.body = true := by
    rw [hbody]
    simp [prefixStr, List.isPrefixOf]
  have hxl : toLowerCase x ≠ [] := fun h => hx (hl.nonempty x h)
  have hxt : trim (toLowerCase x) = toLowerCase x := hl.ends x (trim_of_word x hxw)
  have hdrop : (toLowerCase event.body).drop prefixStr.length =
      toLowerCase n ++ List.replicate (k + 1) ' ' ++ toLowerCase x := by
    rw [hbody, lower_slash hl, ← lower_spaces hl]
    rfl
  have hkey : firstWord (splitSpaces (trim ((toLowerCase event.body).drop prefixStr.length))) =
      toLowerCase n := by
    rw [hdrop]
    exact firstWord_word_spaces_word _ _ k (fun h => hn (hl.nonempty n h)) hxl
      (hl.ends n (trim_of_word n hnw))
      (fun h => space_not_mem_of_word hnw (hl.spaces n h)) hxt
  have hlit : toLowerCase "prefix".toList = "prefix".toList := by
    rw [hl.ascii _ (by decide)]
    decide
  refine ⟨?_, ?_⟩
  · rw [handleMessage_slash hl api commands config event args userData hp, hkey, hreg]
    simp only []
    rw [tryCatch_awaitExecute]
  · rw [lower_spaces hl, hlit]
    exact firstWord_word_spaces_word _ _ k (by decide) hxl (by decide) (by decide) hxt

/-- C10, amended, at the body `/help  me` (two spaces) with `help` registered. -/
theorem C10_tokens_split_at_spaces_witness :
    handleMessage asciiToLowerCase api0 [("help".toList, quietCommand "help")] cfg0
        (msg "/help  me") ["/help".toList, "me".toList] [] =
      { userData := [],
        trace := [Effect.execute (quietCommand "help") ["/help".toList, "me".toList]],
        thrown := none } ∧
    firstWord (splitSpaces (trim (asciiToLowerCase
      ("prefix".toList ++ List.replicate (1 + 1) ' ' ++ "me".toList)))) = "prefix".toList :=
  C10_tokens_split_at_spaces asciiToLowerCase_laws api0 [("help".toList, quietCommand "help")]
    cfg0 (msg "/help  me") ["/help".toList, "me".toList] [] "help".toList "me".toList 1
    (quietCommand "help") (by decide) (by decide) (by decide) (by decide) (by rfl) rfl

end Kagenou
